import Mathlib

/-!
Verification of the PolyStrips tool core
(`retopoflow/rftool_polystrips/polystrips.py`).

The development shallowly embeds the strip-detection pass
(`update_target`), the visualization recomputation (`update_strip_viz`),
the hover computation of the `main` state, the edit-set construction of
`movehandle_enter`, and the per-point move logic of `modal_handle`.

External collaborators (the host mesh, `polystrips_utils` helpers such as
`crawl_strip` / `is_boundaryedge` / `hash_face_pair`, the bezier library,
and the projection/raycast services of the context) are modelled as
abstract function parameters gathered in context structures; the control
flow of `polystrips.py` itself is translated line by line.
-/

namespace PolyStrips

/-- Faces are identified by opaque handles (object identity in the source). -/
abbrev Face := Nat

/-- Screen points / vectors (`Vec2D`), in pixel coordinates. -/
structure V2 where
  x : Int
  y : Int
deriving DecidableEq, Repr

/-- Rational 3D points (`Point`). Point equality in the source is
elementwise value equality (mathutils vector semantics). -/
structure V3 where
  x : ℚ
  y : ℚ
  z : ℚ
deriving DecidableEq, Repr

def v2sub (a b : V2) : V2 := ⟨a.x - b.x, a.y - b.y⟩

def v2add (a b : V2) : V2 := ⟨a.x + b.x, a.y + b.y⟩

/-! ## Strip Detection Engine (`update_target`, lines 84-143) -/

/-- The external environment of one detection pass: the current selection
and the `polystrips_utils` helpers, with the quad set `bmquads` of the pass
folded in.  `crawl` additionally receives the current junction list because
`crawl_strip(bmf, bme, bmquads, junctions)` consults the junction set. -/
structure DetectCtx where
  selectedFaces : List Face
  vertCount : Face → Nat
  isBoundaryVert : Face → Fin 4 → Bool
  isBoundaryEdge : Face → Fin 4 → Bool
  neighborEdges : Face → Fin 4 → List (Fin 4)
  crawl : Face → Fin 4 → List Face → Option (List Face)
  maxStrips : Nat
  curveEval : List Face → ℚ → V3

/-- The quad filter of line 92:
`set(bmf for bmf in get_selected_faces() if len(bmf.verts) == 4)`. -/
def bmquadsOf (ctx : DetectCtx) : List Face :=
  (ctx.selectedFaces.filter (fun f => ctx.vertCount f = 4)).dedup

/-- First pass (lines 96-104): a selected quad is kept as a junction when
some vertex lies on the selection boundary and its boundary edges are not
confined to one opposing pair. -/
def firstPassKeep (ctx : DetectCtx) (f : Face) : Bool :=
  ((List.finRange 4).any (fun v => ctx.isBoundaryVert f v)) &&
  (let e0 := ctx.isBoundaryEdge f 0
   let e1 := ctx.isBoundaryEdge f 1
   let e2 := ctx.isBoundaryEdge f 2
   let e3 := ctx.isBoundaryEdge f 3
   !((e0 || e2) && !(e1 || e3)) && !((e1 || e3) && !(e0 || e2)))

/-- The junction set after the first pass, as a list in iteration order. -/
def firstPass (ctx : DetectCtx) (quads : List Face) : List Face :=
  quads.filter (fun f => firstPassKeep ctx f)

/-- Set insertion for the junction list (`junctions.add`). -/
def insertJ (f : Face) (js : List Face) : List Face :=
  if f ∈ js then js else js ++ [f]

/-- One popped boundary pair of the second pass (lines 109-113): crawl from
each neighboring edge and promote the terminal face of a successful crawl.
`strip[-1]` is modelled by `getLastD` (the source would raise on an empty
chain; `crawl_strip` never returns one). -/
def secondPassStep (ctx : DetectCtx) (js : List Face) (fe : Face × Fin 4) : List Face :=
  (ctx.neighborEdges fe.1 fe.2).foldl
    (fun js e_ =>
      match ctx.crawl fe.1 e_ js with
      | none => js
      | some strip => insertJ (strip.getLastD 0) js)
    js

/-- Second pass (lines 107-113): all (boundary edge, face) pairs are
processed once; the pop order of the Python set is the list order here. -/
def secondPass (ctx : DetectCtx) (quads : List Face) (junctions0 : List Face) : List Face :=
  (quads.flatMap (fun f =>
      ((List.finRange 4).filter (fun e => ctx.isBoundaryEdge f e)).map (fun e => (f, e)))).foldl
    (fun js fe => secondPassStep ctx js fe) junctions0

/-- The junction list computed by both passes. -/
def junctionsOf (ctx : DetectCtx) (quads : List Face) : List Face :=
  secondPass ctx quads (firstPass ctx quads)

/-- Mutable state of the strip-extraction loop: the `touched` set of
dedup keys (`hash_face_pair` values) and the accumulated strip chains. -/
structure ExtractState where
  touched : List Nat
  strips : List (List Face)
deriving DecidableEq, Repr

/-- The `add_strip` closure (lines 121-129): crawl from `bmf0` across edge `e`; on a
chain longer than one face whose (hashed) end pair is new, register both
orderings of the key and append the chain. -/
def add_strip (crawlF : Face → Fin 4 → Option (List Face)) (hashFP : Face → Face → Nat)
    (bmf0 : Face) (e : Fin 4) (st : ExtractState) : ExtractState :=
  match crawlF bmf0 e with
  | none => st
  | some strip =>
    if strip.isEmpty then st
    else
      let bmf1 := strip.getLastD 0
      if 1 < strip.length ∧ hashFP bmf0 bmf1 ∉ st.touched then
        { touched := hashFP bmf0 bmf1 :: hashFP bmf1 bmf0 :: st.touched,
          strips := st.strips ++ [strip] }
      else st

/-- One junction of the extraction loop (lines 117-134): try `add_strip`
on each of the four edges that is not itself a boundary edge. -/
def junctionStep (crawlF : Face → Fin 4 → Option (List Face)) (hashFP : Face → Face → Nat)
    (isBE : Face → Fin 4 → Bool) (st : ExtractState) (bmf0 : Face) : ExtractState :=
  let st := if !(isBE bmf0 0) then add_strip crawlF hashFP bmf0 0 st else st
  let st := if !(isBE bmf0 1) then add_strip crawlF hashFP bmf0 1 st else st
  let st := if !(isBE bmf0 2) then add_strip crawlF hashFP bmf0 2 st else st
  if !(isBE bmf0 3) then add_strip crawlF hashFP bmf0 3 st else st

/-- The extraction loop with the cap check of lines 135-137: after each
junction, when `polystrips max strips` is set (nonzero) and the running
count exceeds it, clear the strips and break. -/
def extract (crawlF : Face → Fin 4 → Option (List Face)) (hashFP : Face → Face → Nat)
    (isBE : Face → Fin 4 → Bool) (K : Nat) : List Face → ExtractState → ExtractState
  | [], st => st
  | f :: fs, st =>
    let st' := junctionStep crawlF hashFP isBE st f
    if K ≠ 0 ∧ K < st'.strips.length then { st' with strips := [] }
    else extract crawlF hashFP isBE K fs st'

/-- Interaction states of the finite state machine. -/
inductive FSMState where
  | main
  | moveHandle
  | rotate
  | scale
deriving DecidableEq, Repr

/-- The tool fields read and written by `update_target`. -/
structure ToolState where
  fsm : FSMState
  strips : List (List Face)
  strip_pts : List (List V3)
deriving DecidableEq, Repr

/-- The `update_strip_viz` recomputation (lines 141-143): eleven uniform bezier samples per
strip. -/
def update_strip_viz (ctx : DetectCtx) (strips : List (List Face)) : List (List V3) :=
  strips.map (fun s => (List.range 11).map (fun i => ctx.curveEval s ((i : ℚ) / 10)))

/-- The hash function used for dedup keys; `hash_face_pair` is external, so
it stays an explicit parameter everywhere it occurs.  `update_target` is
stated for an arbitrary `hashFP`. -/
def update_target (ctx : DetectCtx) (hashFP : Face → Face → Nat) (st : ToolState) : ToolState :=
  if st.fsm = FSMState.moveHandle then st
  else
    let st1 : ToolState := { st with strips := [] }
    let quads := bmquadsOf ctx
    if quads.isEmpty then st1
    else
      let junctions := junctionsOf ctx quads
      let ex := extract (fun f e => ctx.crawl f e junctions) hashFP ctx.isBoundaryEdge
                  ctx.maxStrips junctions ⟨[], []⟩
      { st1 with
          strips := ex.strips,
          strip_pts := update_strip_viz ctx ex.strips }

/-! ## Hover computation (`main` state, lines 146-164) -/

/-- A strip as seen by the interaction code: the four bezier control
points of its curve (`strip.curve.points()`). -/
structure StripH where
  p0 : V3
  p1 : V3
  p2 : V3
  p3 : V3
deriving DecidableEq, Repr

/-- The control points in curve iteration order. -/
def StripH.points (s : StripH) : List V3 := [s.p0, s.p1, s.p2, s.p3]

/-- Screen-space services used by `main` and `move handle`:
`Point_to_Point2D`, the `Vec2D` length, and `drawing.scale`. -/
structure MainCtx where
  toP2 : V3 → Option V2
  len : V2 → Int
  scale : Int → Int

/-- The hover filter of lines 158-160: a control point is kept unless its
projection is missing or `(mouse - v).length > drawing.scale(select dist)`
(points at exactly the scaled distance are kept). -/
def hoverPoint (ctx : MainCtx) (mouse : V2) (selectDist : Int) (cbpt : V3) : Bool :=
  match ctx.toP2 cbpt with
  | none => false
  | some v => !(decide (ctx.scale selectDist < ctx.len (v2sub mouse v)))

/-- Scan the control points of one strip (the inner loop of lines
157-164), appending each hovered point to `hovering_handles` and its strip
to `hovering_strips`. -/
def hoverPts (hp : V3 → Bool) (strip : StripH) :
    List V3 × List StripH → List V3 → List V3 × List StripH
  | acc, [] => acc
  | acc, p :: ps =>
    if hp p then hoverPts hp strip (acc.1 ++ [p], acc.2 ++ [strip]) ps
    else hoverPts hp strip acc ps

/-- The outer loop over `self.strips` of lines 156-164. -/
def hoverStrips (hp : V3 → Bool) :
    List V3 × List StripH → List StripH → List V3 × List StripH
  | acc, [] => acc
  | acc, s :: ss => hoverStrips hp (hoverPts hp s acc s.points) ss

/-- The recomputation of `hovering_handles` and `hovering_strips` at the
top of each `main` tick (both cleared first). -/
def computeHover (ctx : MainCtx) (mouse : V2) (selectDist : Int)
    (strips : List StripH) : List V3 × List StripH :=
  hoverStrips (hoverPoint ctx mouse selectDist) ([], []) strips

/-! ## Edit-set construction (`movehandle_enter`, lines 200-219) -/

/-- One iteration of the loop at lines 207-214: pull in the inner point
adjacent to an outer point already in the edit set (membership is value
equality, as with Python `in` on vectors). -/
def enterStep (cbpts : List V3) (mods : List StripH) (s : StripH) : List V3 × List StripH :=
  let acc := if s.p0 ∈ cbpts ∧ s.p1 ∉ cbpts then (cbpts ++ [s.p1], mods ++ [s]) else (cbpts, mods)
  if s.p3 ∈ acc.1 ∧ s.p2 ∉ acc.1 then (acc.1 ++ [s.p2], acc.2 ++ [s]) else acc

/-- The full loop over `self.strips`; starts from
`cbpts = list(hovering_handles)` and `mod_strips = hovering_strips`. -/
def enterLoop : List StripH → List V3 → List StripH → List V3 × List StripH
  | [], cbpts, mods => (cbpts, mods)
  | s :: ss, cbpts, mods =>
    let acc := enterStep cbpts mods s
    enterLoop ss acc.1 acc.2

/-! ## `modal_handle` (lines 228-258) -/

/-- Observable calls made by the tail of a `move handle` modal step:
`strip.update(...)` invocations and the final `update_strip_viz()`. -/
inductive Ev where
  | update (s : StripH)
  | viz
deriving DecidableEq, Repr

/-- The call sequence of lines 255-258: `update` on each member of
`self.hovering_strips`, then the visualization recomputation. -/
def modalTail (hovering_strips : List StripH) : List Ev :=
  hovering_strips.map Ev.update ++ [Ev.viz]

/-- Projection/raycast services used by the per-point move of lines
242-253: `raycast_sources_Point2D`, `Point2D_to_Vec`, `Point2D_to_Ray`
(an origin-direction pair), and `Point_to_depth`. -/
structure DragCtx where
  raycast : V2 → Option V3
  pt2vec : V2 → V3
  pt2rayO : V2 → V3
  pt2rayD : V2 → V3
  depth : V3 → ℚ

/-- Dot product of the external vector math. -/
def dot3 (a b : V3) : ℚ := a.x * b.x + a.y * b.y + a.z * b.z

/-- Ray evaluation: origin plus the scaled direction. -/
def rayEval (o d : V3) (t : ℚ) : V3 := ⟨o.x + t * d.x, o.y + t * d.y, o.z + t * d.z⟩

/-- One entry of `self.sel_cbpts`: the inner/outer classification and the
snapshotted original 3D position and screen projection. -/
structure SelPt where
  inner : Bool
  oco : V3
  oco2D : V2
deriving DecidableEq, Repr

/-- The per-point body of the loop at lines 244-253.  Returns the point's
new position together with the list of `raycast_sources_Point2D` query
points issued for it (the instrumentation records each call site of the
translated branch).  An outer point keeps its current position `cur` when
the raycast misses; an inner point is re-derived by the depth-preserving
reprojection and no raycast is issued. -/
def movePoint (ctx : DragCtx) (delta : V2) (p : SelPt) (cur : V3) : V3 × List V2 :=
  let nco2D := v2add p.oco2D delta
  if !p.inner then
    match ctx.raycast nco2D with
    | some xyz => (xyz, [nco2D])
    | none => (cur, [nco2D])
  else
    let ov := ctx.pt2vec p.oco2D
    let od := ctx.depth p.oco
    (rayEval (ctx.pt2rayO nco2D) (ctx.pt2rayD nco2D) (od / dot3 ov (ctx.pt2rayD nco2D)), [])

/-! ## Concrete environments for witnesses and counterexamples -/

/-- A detection environment with no selection activity. -/
def ctxTriv : DetectCtx where
  selectedFaces := []
  vertCount := fun _ => 4
  isBoundaryVert := fun _ _ => false
  isBoundaryEdge := fun _ _ => false
  neighborEdges := fun _ _ => []
  crawl := fun _ _ _ => none
  maxStrips := 0
  curveEval := fun _ _ => ⟨0, 0, 0⟩

/-- A selection of one triangle: nonempty, but with no quads. -/
def ctxNoQuads : DetectCtx where
  selectedFaces := [7]
  vertCount := fun _ => 3
  isBoundaryVert := fun _ _ => true
  isBoundaryEdge := fun _ _ => false
  neighborEdges := fun _ _ => []
  crawl := fun _ _ _ => none
  maxStrips := 0
  curveEval := fun _ _ => ⟨0, 0, 0⟩

/-- An ordered pairing function standing in for `hash_face_pair`. -/
def pairHash (a b : Face) : Nat := (a + b) * (a + b + 1) / 2 + b

/-! ## C8: the `move handle` guard of `update_target` -/

/-- C8: whenever `update_target` runs while the state machine is in
`move handle`, it returns immediately and the whole tool state — strip
list, per-strip polyline samples, and all stored data — is unchanged. -/
theorem update_target_move_handle_noop (ctx : DetectCtx) (hashFP : Face → Face → Nat)
    (st : ToolState) (h : st.fsm = FSMState.moveHandle) :
    update_target ctx hashFP st = st := by
  simp [update_target, h]

theorem update_target_move_handle_noop_witness :
    update_target ctxTriv pairHash ⟨FSMState.moveHandle, [[1, 2]], [[⟨1, 1, 1⟩]]⟩ =
      ⟨FSMState.moveHandle, [[1, 2]], [[⟨1, 1, 1⟩]]⟩ :=
  update_target_move_handle_noop ctxTriv pairHash ⟨FSMState.moveHandle, [[1, 2]], [[⟨1, 1, 1⟩]]⟩ rfl

/-! ## C9: empty quad selection -/

/-- C9: when a detection pass runs (the state machine is not in
`move handle`) and the selection contains no quadrilateral faces, the
strip list of the result is exactly empty. -/
theorem update_target_no_quads_empty (ctx : DetectCtx) (hashFP : Face → Face → Nat)
    (st : ToolState) (hfsm : st.fsm ≠ FSMState.moveHandle)
    (hq : ctx.selectedFaces.filter (fun f => ctx.vertCount f = 4) = []) :
    (update_target ctx hashFP st).strips = [] := by
  simp [update_target, hfsm, bmquadsOf, hq]

theorem update_target_no_quads_empty_witness :
    (update_target ctxNoQuads pairHash ⟨FSMState.main, [[1, 2]], []⟩).strips = [] :=
  update_target_no_quads_empty ctxNoQuads pairHash ⟨FSMState.main, [[1, 2]], []⟩
    (by decide) (by decide)

/-! ## C10: stale `strip_pts` after an empty-quad pass -/

/-- C10: on a detection pass with no quadrilateral faces selected, the
handler clears the strips and returns before `update_strip_viz`, so
`strip_pts` keeps its value from the previous pass even though the strip
list is now empty. -/
theorem update_target_no_quads_stale_viz (ctx : DetectCtx) (hashFP : Face → Face → Nat)
    (st : ToolState) (hfsm : st.fsm ≠ FSMState.moveHandle)
    (hq : ctx.selectedFaces.filter (fun f => ctx.vertCount f = 4) = []) :
    (update_target ctx hashFP st).strip_pts = st.strip_pts ∧
      (update_target ctx hashFP st).strips = [] := by
  constructor <;> simp [update_target, hfsm, bmquadsOf, hq]

theorem update_target_no_quads_stale_viz_witness :
    (update_target ctxNoQuads pairHash ⟨FSMState.main, [], [[⟨1, 2, 3⟩]]⟩).strip_pts =
        [[⟨1, 2, 3⟩]] ∧
      (update_target ctxNoQuads pairHash ⟨FSMState.main, [], [[⟨1, 2, 3⟩]]⟩).strips = [] :=
  update_target_no_quads_stale_viz ctxNoQuads pairHash ⟨FSMState.main, [], [[⟨1, 2, 3⟩]]⟩
    (by decide) (by decide)

/-! ## C1: first-pass junction classification -/

/-- A selected quad whose boundary edges are one from each opposing pair
(edge 0 and edge 1 are boundary, edges 2 and 3 interior), with boundary
vertices: a corner configuration. -/
def ctxCorner : DetectCtx where
  selectedFaces := [0]
  vertCount := fun _ => 4
  isBoundaryVert := fun _ _ => true
  isBoundaryEdge := fun _ e => decide (e = 0 ∨ e = 1)
  neighborEdges := fun _ _ => []
  crawl := fun _ _ _ => none
  maxStrips := 0
  curveEval := fun _ _ => ⟨0, 0, 0⟩

/-- Refutation of C1 as stated: face 0 has exactly one boundary edge in
the pair {edge0, edge2} (namely edge 0) and exactly one in {edge1, edge3}
(namely edge 1), a vertex on the selection boundary — and the first pass
does classify it as a junction. -/
theorem firstPass_exactly_one_per_pair_cex :
    (ctxCorner.isBoundaryEdge 0 0 = true ∧ ctxCorner.isBoundaryEdge 0 2 = false) ∧
      (ctxCorner.isBoundaryEdge 0 1 = true ∧ ctxCorner.isBoundaryEdge 0 3 = false) ∧
      (∃ v : Fin 4, ctxCorner.isBoundaryVert 0 v = true) ∧
      (0 : Face) ∈ firstPass ctxCorner [0] := by
  decide

/-- C1 (amended): a face whose boundary edges are confined to a single
opposing pair — at least one boundary edge in {edge0, edge2} and none in
{edge1, edge3}, or symmetrically — is never classified as a junction by
the first pass. -/
theorem firstPass_passthrough_skip (ctx : DetectCtx) (quads : List Face) (f : Face)
    (h : ((ctx.isBoundaryEdge f 0 || ctx.isBoundaryEdge f 2) = true ∧
            (ctx.isBoundaryEdge f 1 || ctx.isBoundaryEdge f 3) = false) ∨
         ((ctx.isBoundaryEdge f 1 || ctx.isBoundaryEdge f 3) = true ∧
            (ctx.isBoundaryEdge f 0 || ctx.isBoundaryEdge f 2) = false)) :
    f ∉ firstPass ctx quads := by
  intro hmem
  rw [firstPass, List.mem_filter] at hmem
  have hk := hmem.2
  rw [firstPassKeep] at hk
  rcases h with ⟨h1, h2⟩ | ⟨h1, h2⟩ <;> simp_all

/-- A strip-interior face: only edge 0 is a boundary edge. -/
def ctxThrough : DetectCtx where
  selectedFaces := [0]
  vertCount := fun _ => 4
  isBoundaryVert := fun _ _ => true
  isBoundaryEdge := fun _ e => decide (e = 0)
  neighborEdges := fun _ _ => []
  crawl := fun _ _ _ => none
  maxStrips := 0
  curveEval := fun _ _ => ⟨0, 0, 0⟩

theorem firstPass_passthrough_skip_witness : (0 : Face) ∉ firstPass ctxThrough [0] :=
  firstPass_passthrough_skip ctxThrough [0] 0 (Or.inl ⟨by decide, by decide⟩)

/-! ## C5: raycast discipline of the `move handle` modal step -/

/-- C5: in the per-point move of a `move handle` modal step, an inner
point issues no source-surface raycast and is repositioned by the
depth-preserving reprojection, while an outer point issues exactly one
raycast at its new screen position and, when that raycast misses, keeps
its current position for the frame. -/
theorem movePoint_raycast_discipline (ctx : DragCtx) (delta : V2) (p : SelPt) (cur : V3) :
    (p.inner = true →
      (movePoint ctx delta p cur).2 = [] ∧
      (movePoint ctx delta p cur).1 =
        rayEval (ctx.pt2rayO (v2add p.oco2D delta)) (ctx.pt2rayD (v2add p.oco2D delta))
          (ctx.depth p.oco / dot3 (ctx.pt2vec p.oco2D) (ctx.pt2rayD (v2add p.oco2D delta)))) ∧
    (p.inner = false →
      (movePoint ctx delta p cur).2 = [v2add p.oco2D delta] ∧
      (ctx.raycast (v2add p.oco2D delta) = none → (movePoint ctx delta p cur).1 = cur)) := by
  constructor
  · intro h
    constructor <;> simp [movePoint, h]
  · intro h
    cases hr : ctx.raycast (v2add p.oco2D delta) <;>
      simp [movePoint, h, hr]

/-- A drag environment whose raycast always misses. -/
def ctxMiss : DragCtx where
  raycast := fun _ => none
  pt2vec := fun _ => ⟨0, 0, 1⟩
  pt2rayO := fun _ => ⟨0, 0, 0⟩
  pt2rayD := fun _ => ⟨0, 0, 1⟩
  depth := fun _ => 4

theorem movePoint_raycast_discipline_witness :
    (movePoint ctxMiss ⟨1, 0⟩ ⟨true, ⟨0, 0, 0⟩, ⟨0, 0⟩⟩ ⟨9, 9, 9⟩).2 = [] ∧
      (movePoint ctxMiss ⟨1, 0⟩ ⟨false, ⟨0, 0, 0⟩, ⟨0, 0⟩⟩ ⟨9, 9, 9⟩).2 =
        [v2add ⟨0, 0⟩ ⟨1, 0⟩] ∧
      (movePoint ctxMiss ⟨1, 0⟩ ⟨false, ⟨0, 0, 0⟩, ⟨0, 0⟩⟩ ⟨9, 9, 9⟩).1 = ⟨9, 9, 9⟩ :=
  ⟨((movePoint_raycast_discipline ctxMiss ⟨1, 0⟩ ⟨true, ⟨0, 0, 0⟩, ⟨0, 0⟩⟩ ⟨9, 9, 9⟩).1 rfl).1,
   ((movePoint_raycast_discipline ctxMiss ⟨1, 0⟩ ⟨false, ⟨0, 0, 0⟩, ⟨0, 0⟩⟩ ⟨9, 9, 9⟩).2 rfl).1,
   ((movePoint_raycast_discipline ctxMiss ⟨1, 0⟩ ⟨false, ⟨0, 0, 0⟩, ⟨0, 0⟩⟩ ⟨9, 9, 9⟩).2 rfl).2 rfl⟩

/-! ## C2: the `max strips` cap clears the result -/

theorem extract_cap_aux (crawlF : Face → Fin 4 → Option (List Face))
    (hashFP : Face → Face → Nat) (isBE : Face → Fin 4 → Bool) (K : Nat) (hK : 0 < K) :
    ∀ (fs : List Face) (st : ExtractState), st.strips.length ≤ K →
      K < (extract crawlF hashFP isBE 0 fs st).strips.length →
      (extract crawlF hashFP isBE K fs st).strips = [] := by
  intro fs
  induction fs with
  | nil =>
    intro st hle hgt
    rw [extract] at hgt
    omega
  | cons f fs ih =>
    intro st hle hgt
    rw [extract] at hgt
    rw [if_neg (by simp)] at hgt
    rw [extract]
    by_cases hc : K < (junctionStep crawlF hashFP isBE st f).strips.length
    · rw [if_pos ⟨Nat.pos_iff_ne_zero.mp hK, hc⟩]
    · rw [if_neg (fun hh => hc hh.2)]
      exact ih _ (Nat.le_of_not_lt hc) hgt

/-- C2: when the configured `polystrips max strips` cap K is positive and
the same pass run without the cap would leave more than K strips, the
capped pass returns with the strip list exactly empty — never a truncated
list. -/
theorem update_target_cap_empty (ctx : DetectCtx) (hashFP : Face → Face → Nat)
    (st : ToolState) (K : Nat) (hK : ctx.maxStrips = K) (hKpos : 0 < K)
    (hfsm : st.fsm ≠ FSMState.moveHandle)
    (hover : K < (update_target { ctx with maxStrips := 0 } hashFP st).strips.length) :
    (update_target ctx hashFP st).strips = [] := by
  rw [update_target] at hover ⊢
  rw [if_neg hfsm] at hover ⊢
  by_cases hq : (bmquadsOf ctx).isEmpty
  · have hq' : (bmquadsOf { ctx with maxStrips := 0 }).isEmpty := hq
    rw [if_pos hq'] at hover
    simp at hover
  · have hq' : ¬ (bmquadsOf { ctx with maxStrips := 0 }).isEmpty := hq
    rw [if_neg hq'] at hover
    rw [if_neg hq]
    simp only at hover ⊢
    rw [hK]
    exact extract_cap_aux _ hashFP _ K hKpos _ _ (by simp) hover

/-- Four selected quads forming two separate two-quad strips, detected
with a cap of one strip. -/
def ctxCap : DetectCtx where
  selectedFaces := [0, 1, 2, 3]
  vertCount := fun _ => 4
  isBoundaryVert := fun _ _ => true
  isBoundaryEdge := fun _ _ => false
  neighborEdges := fun _ _ => []
  crawl := fun f e _ =>
    if f = 0 ∧ e = 0 then some [0, 1]
    else if f = 2 ∧ e = 0 then some [2, 3]
    else none
  maxStrips := 1
  curveEval := fun _ _ => ⟨0, 0, 0⟩

theorem update_target_cap_empty_witness :
    1 < (update_target { ctxCap with maxStrips := 0 } pairHash
          ⟨FSMState.main, [], []⟩).strips.length ∧
      (update_target ctxCap pairHash ⟨FSMState.main, [], []⟩).strips = [] :=
  ⟨by decide,
   update_target_cap_empty ctxCap pairHash ⟨FSMState.main, [], []⟩ 1 rfl (by decide)
     (by decide) (by decide)⟩

/-! ## C4: every emitted strip chain has length at least two -/

theorem add_strip_min_len (crawlF : Face → Fin 4 → Option (List Face))
    (hashFP : Face → Face → Nat) (f : Face) (e : Fin 4) (st : ExtractState)
    (h : ∀ c ∈ st.strips, 2 ≤ c.length) :
    ∀ c ∈ (add_strip crawlF hashFP f e st).strips, 2 ≤ c.length := by
  intro c hc
  rw [add_strip] at hc
  cases hcr : crawlF f e with
  | none => rw [hcr] at hc; exact h c hc
  | some strip =>
    rw [hcr] at hc
    dsimp only at hc
    by_cases he : strip.isEmpty
    · rw [if_pos he] at hc; exact h c hc
    · rw [if_neg he] at hc
      by_cases hg : 1 < strip.length ∧ hashFP f (strip.getLastD 0) ∉ st.touched
      · rw [if_pos hg] at hc
        rcases List.mem_append.mp hc with hc' | hc'
        · exact h c hc'
        · rw [List.mem_singleton.mp hc']
          omega
      · rw [if_neg hg] at hc; exact h c hc

theorem ite_add_strip_min_len (crawlF : Face → Fin 4 → Option (List Face))
    (hashFP : Face → Face → Nat) (b : Bool) (f : Face) (e : Fin 4) (st : ExtractState)
    (h : ∀ c ∈ st.strips, 2 ≤ c.length) :
    ∀ c ∈ (if b then add_strip crawlF hashFP f e st else st).strips, 2 ≤ c.length := by
  cases b
  · simpa using h
  · simpa using add_strip_min_len crawlF hashFP f e st h

theorem junctionStep_min_len (crawlF : Face → Fin 4 → Option (List Face))
    (hashFP : Face → Face → Nat) (isBE : Face → Fin 4 → Bool) (st : ExtractState) (f : Face)
    (h : ∀ c ∈ st.strips, 2 ≤ c.length) :
    ∀ c ∈ (junctionStep crawlF hashFP isBE st f).strips, 2 ≤ c.length := by
  rw [junctionStep]
  exact ite_add_strip_min_len crawlF hashFP _ f 3 _
    (ite_add_strip_min_len crawlF hashFP _ f 2 _
      (ite_add_strip_min_len crawlF hashFP _ f 1 _
        (ite_add_strip_min_len crawlF hashFP _ f 0 _ h)))

theorem extract_min_len (crawlF : Face → Fin 4 → Option (List Face))
    (hashFP : Face → Face → Nat) (isBE : Face → Fin 4 → Bool) (K : Nat) :
    ∀ (fs : List Face) (st : ExtractState), (∀ c ∈ st.strips, 2 ≤ c.length) →
      ∀ c ∈ (extract crawlF hashFP isBE K fs st).strips, 2 ≤ c.length := by
  intro fs
  induction fs with
  | nil => intro st h; rw [extract]; exact h
  | cons f fs ih =>
    intro st h
    rw [extract]
    by_cases hc : K ≠ 0 ∧ K < (junctionStep crawlF hashFP isBE st f).strips.length
    · rw [if_pos hc]; intro c hc'; simp at hc'
    · rw [if_neg hc]
      exact ih _ (junctionStep_min_len crawlF hashFP isBE st f h)

/-- C4: every strip placed in the result of a detection pass has a face
chain of length at least two; a crawl returning a single-face chain (a
self-pair) is never appended. -/
theorem update_target_strips_min_len (ctx : DetectCtx) (hashFP : Face → Face → Nat)
    (st : ToolState) (hfsm : st.fsm ≠ FSMState.moveHandle) :
    ∀ c ∈ (update_target ctx hashFP st).strips, 2 ≤ c.length := by
  rw [update_target, if_neg hfsm]
  by_cases hq : (bmquadsOf ctx).isEmpty
  · rw [if_pos hq]; intro c hc; simp at hc
  · rw [if_neg hq]
    exact extract_min_len _ hashFP _ _ _ _ (by intro c hc; simp at hc)

theorem update_target_strips_min_len_witness :
    [0, 1] ∈ (update_target { ctxCap with maxStrips := 0 } pairHash
        ⟨FSMState.main, [], []⟩).strips ∧
      2 ≤ ([0, 1] : List Face).length :=
  ⟨by decide,
   update_target_strips_min_len { ctxCap with maxStrips := 0 } pairHash
     ⟨FSMState.main, [], []⟩ (by decide) [0, 1] (by decide)⟩

/-! ## C3: no two strips share an unordered end-face pair -/

/-- The end faces of a stored chain: its first and last face (the
`end_faces()` of the Strip model). -/
def endPair (c : List Face) : Face × Face := (c.headD 0, c.getLastD 0)

/-- Two ordered pairs describe the same unordered pair. -/
def samePairUnordered (a b : Face × Face) : Prop := a = b ∨ a = (b.2, b.1)

instance (a b : Face × Face) : Decidable (samePairUnordered a b) := by
  rw [samePairUnordered]; infer_instance

theorem samePairUnordered_symm {a b : Face × Face} (h : samePairUnordered a b) :
    samePairUnordered b a := by
  rcases h with h | h
  · exact Or.inl h.symm
  · right
    rw [h]

/-- Invariant of the extraction loop: each stored chain's ordered end-pair
key and its swap are registered in `touched`, and end pairs are pairwise
distinct as unordered pairs. -/
def DedupInv (hashFP : Face → Face → Nat) (st : ExtractState) : Prop :=
  (∀ c ∈ st.strips,
      hashFP (c.headD 0) (c.getLastD 0) ∈ st.touched ∧
      hashFP (c.getLastD 0) (c.headD 0) ∈ st.touched) ∧
  st.strips.Pairwise (fun c1 c2 => ¬ samePairUnordered (endPair c1) (endPair c2))

theorem add_strip_dedup (crawlF : Face → Fin 4 → Option (List Face))
    (hashFP : Face → Face → Nat) (f : Face) (e : Fin 4) (st : ExtractState)
    (hhead : ∀ c, crawlF f e = some c → c.head? = some f)
    (h : DedupInv hashFP st) : DedupInv hashFP (add_strip crawlF hashFP f e st) := by
  rw [add_strip]
  cases hcr : crawlF f e with
  | none => exact h
  | some strip =>
    dsimp only
    by_cases he : strip.isEmpty
    · rw [if_pos he]; exact h
    · rw [if_neg he]
      by_cases hg : 1 < strip.length ∧ hashFP f (strip.getLastD 0) ∉ st.touched
      · rw [if_pos hg]
        have hhd : strip.headD 0 = f := by
          have := hhead strip hcr
          cases strip with
          | nil => simp at he
          | cons a l => simpa using this
        constructor
        · intro c hc
          rcases List.mem_append.mp hc with hc' | hc'
          · have := h.1 c hc'
            exact ⟨List.mem_cons_of_mem _ (List.mem_cons_of_mem _ this.1),
                   List.mem_cons_of_mem _ (List.mem_cons_of_mem _ this.2)⟩
          · rw [List.mem_singleton.mp hc', hhd]
            exact ⟨List.mem_cons_self _ _, List.mem_cons_of_mem _ (List.mem_cons_self _ _)⟩
        · rw [List.pairwise_append]
          refine ⟨h.2, List.pairwise_singleton _ _, ?_⟩
          intro c hc c' hc' hsame
          rw [List.mem_singleton.mp hc'] at hsame
          have hkey : endPair strip = (f, strip.getLastD 0) := by
            rw [endPair, hhd]
          rw [hkey] at hsame
          have hmem := h.1 c hc
          rcases hsame with hs | hs <;> rw [endPair, Prod.mk.injEq] at hs
          · rw [hs.1, hs.2] at hmem
            exact hg.2 hmem.1
          · dsimp at hs
            rw [hs.1, hs.2] at hmem
            exact hg.2 hmem.2
      · rw [if_neg hg]; exact h

theorem ite_add_strip_dedup (crawlF : Face → Fin 4 → Option (List Face))
    (hashFP : Face → Face → Nat) (b : Bool) (f : Face) (e : Fin 4) (st : ExtractState)
    (hhead : ∀ c, crawlF f e = some c → c.head? = some f)
    (h : DedupInv hashFP st) :
    DedupInv hashFP (if b then add_strip crawlF hashFP f e st else st) := by
  cases b
  · simpa using h
  · simpa using add_strip_dedup crawlF hashFP f e st hhead h

theorem junctionStep_dedup (crawlF : Face → Fin 4 → Option (List Face))
    (hashFP : Face → Face → Nat) (isBE : Face → Fin 4 → Bool) (st : ExtractState) (f : Face)
    (hhead : ∀ e c, crawlF f e = some c → c.head? = some f)
    (h : DedupInv hashFP st) : DedupInv hashFP (junctionStep crawlF hashFP isBE st f) := by
  rw [junctionStep]
  exact ite_add_strip_dedup crawlF hashFP _ f 3 _ (hhead 3)
    (ite_add_strip_dedup crawlF hashFP _ f 2 _ (hhead 2)
      (ite_add_strip_dedup crawlF hashFP _ f 1 _ (hhead 1)
        (ite_add_strip_dedup crawlF hashFP _ f 0 _ (hhead 0) h)))

theorem extract_dedup (crawlF : Face → Fin 4 → Option (List Face))
    (hashFP : Face → Face → Nat) (isBE : Face → Fin 4 → Bool) (K : Nat)
    (hhead : ∀ f e c, crawlF f e = some c → c.head? = some f) :
    ∀ (fs : List Face) (st : ExtractState), DedupInv hashFP st →
      DedupInv hashFP (extract crawlF hashFP isBE K fs st) := by
  intro fs
  induction fs with
  | nil => intro st h; rw [extract]; exact h
  | cons f fs ih =>
    intro st h
    rw [extract]
    by_cases hc : K ≠ 0 ∧ K < (junctionStep crawlF hashFP isBE st f).strips.length
    · rw [if_pos hc]
      exact ⟨by intro c hc'; simp at hc', by simp⟩
    · rw [if_neg hc]
      exact ih _ (junctionStep_dedup crawlF hashFP isBE st f (hhead f) h)

/-- C3: after a detection pass completes, no two strips in the result list
have the same unordered pair of end (junction) faces; a crawl landing on
an already-registered face pair appends no new strip.  `crawl_strip` is
external; modelled from the spec, a successful crawl returns a chain that
starts at the face the crawl was started from. -/
theorem update_target_strips_dedup (ctx : DetectCtx) (hashFP : Face → Face → Nat)
    (st : ToolState) (hfsm : st.fsm ≠ FSMState.moveHandle)
    (hhead : ∀ f e js c, ctx.crawl f e js = some c → c.head? = some f) :
    (update_target ctx hashFP st).strips.Pairwise
      (fun c1 c2 => ¬ samePairUnordered (endPair c1) (endPair c2)) := by
  rw [update_target, if_neg hfsm]
  by_cases hq : (bmquadsOf ctx).isEmpty
  · rw [if_pos hq]; simp
  · rw [if_neg hq]
    refine (extract_dedup _ hashFP _ _ ?_ _ _ ?_).2
    · intro f e c hc
      exact hhead f e _ _ hc
    · exact ⟨by intro c hc; simp at hc, by simp⟩

theorem update_target_strips_dedup_witness :
    (update_target { ctxCap with maxStrips := 0 } pairHash
        ⟨FSMState.main, [], []⟩).strips.Pairwise
      (fun c1 c2 => ¬ samePairUnordered (endPair c1) (endPair c2)) :=
  update_target_strips_dedup { ctxCap with maxStrips := 0 } pairHash
    ⟨FSMState.main, [], []⟩ (by decide)
    (by
      intro f e js c hc
      dsimp only [ctxCap] at hc
      split at hc
      · cases hc
        rename_i hfe
        rw [hfe.1]
        rfl
      · split at hc
        · cases hc
          rename_i hfe
          rw [hfe.1]
          rfl
        · cases hc)

/-! ## Hover lemmas shared by C6 and C7 -/

theorem hoverPts_mem_handles (hp : V3 → Bool) (strip : StripH) :
    ∀ (ps : List V3) (acc : List V3 × List StripH) (p : V3),
      p ∈ (hoverPts hp strip acc ps).1 → p ∈ acc.1 ∨ hp p = true := by
  intro ps
  induction ps with
  | nil => intro acc p h; exact Or.inl h
  | cons q ps ih =>
    intro acc p h
    rw [hoverPts] at h
    by_cases hq : hp q
    · rw [if_pos hq] at h
      rcases ih _ p h with h' | h'
      · rcases List.mem_append.mp h' with h'' | h''
        · exact Or.inl h''
        · rw [List.mem_singleton.mp h'']
          exact Or.inr hq
      · exact Or.inr h'
    · rw [if_neg hq] at h
      exact ih _ p h

theorem hoverStrips_mem_handles (hp : V3 → Bool) :
    ∀ (ss : List StripH) (acc : List V3 × List StripH) (p : V3),
      p ∈ (hoverStrips hp acc ss).1 → p ∈ acc.1 ∨ hp p = true := by
  intro ss
  induction ss with
  | nil => intro acc p h; exact Or.inl h
  | cons s ss ih =>
    intro acc p h
    rw [hoverStrips] at h
    rcases ih _ p h with h' | h'
    · exact hoverPts_mem_handles hp s s.points acc p h'
    · exact Or.inr h'

/-- Every member of `hovering_handles` passed the hover filter. -/
theorem computeHover_handles_hover (ctx : MainCtx) (mouse : V2) (d : Int)
    (strips : List StripH) (p : V3) (h : p ∈ (computeHover ctx mouse d strips).1) :
    hoverPoint ctx mouse d p = true := by
  rcases hoverStrips_mem_handles _ strips ([], []) p h with h' | h'
  · simp at h'
  · exact h'

theorem hoverPts_strips_mono (hp : V3 → Bool) (strip : StripH) :
    ∀ (ps : List V3) (acc : List V3 × List StripH) (S : StripH),
      S ∈ acc.2 → S ∈ (hoverPts hp strip acc ps).2 := by
  intro ps
  induction ps with
  | nil => intro acc S h; exact h
  | cons q ps ih =>
    intro acc S h
    rw [hoverPts]
    by_cases hq : hp q
    · rw [if_pos hq]
      exact ih _ S (List.mem_append_left _ h)
    · rw [if_neg hq]
      exact ih _ S h

theorem hoverStrips_strips_mono (hp : V3 → Bool) :
    ∀ (ss : List StripH) (acc : List V3 × List StripH) (S : StripH),
      S ∈ acc.2 → S ∈ (hoverStrips hp acc ss).2 := by
  intro ss
  induction ss with
  | nil => intro acc S h; exact h
  | cons s ss ih =>
    intro acc S h
    rw [hoverStrips]
    exact ih _ S (hoverPts_strips_mono hp s s.points acc S h)

theorem hoverPts_adds_strip (hp : V3 → Bool) (strip : StripH) :
    ∀ (ps : List V3) (acc : List V3 × List StripH) (p : V3),
      hp p = true → p ∈ ps → strip ∈ (hoverPts hp strip acc ps).2 := by
  intro ps
  induction ps with
  | nil => intro acc p _ h; simp at h
  | cons q ps ih =>
    intro acc p hhp hmem
    rw [hoverPts]
    rcases List.mem_cons.mp hmem with hq | hq
    · rw [hq] at hhp
      rw [if_pos hhp]
      exact hoverPts_strips_mono hp strip ps _ strip
        (List.mem_append_right _ (List.mem_singleton_self strip))
    · by_cases hb : hp q
      · rw [if_pos hb]
        exact ih _ p hhp hq
      · rw [if_neg hb]
        exact ih _ p hhp hq

/-- A strip one of whose control points passes the hover filter joins
`hovering_strips`. -/
theorem hoverStrips_adds (hp : V3 → Bool) :
    ∀ (ss : List StripH) (acc : List V3 × List StripH) (S : StripH) (p : V3),
      S ∈ ss → hp p = true → p ∈ S.points → S ∈ (hoverStrips hp acc ss).2 := by
  intro ss
  induction ss with
  | nil => intro acc S p h; simp at h
  | cons s ss ih =>
    intro acc S p hS hhp hpts
    rw [hoverStrips]
    rcases List.mem_cons.mp hS with hq | hq
    · rw [hq]
      exact hoverStrips_strips_mono hp ss _ s (hq ▸ hoverPts_adds_strip hp s S.points acc p hhp hpts)
    · exact ih _ S p hq hhp hpts

/-! ## C7: the hover distance comparison -/

/-- Screen services where the first control point of `stripHov` projects
to pixel (3, 4) and everything else far away; length is the squared
euclidean norm and the scale maps the radius to its square — so the
comparison is the euclidean-distance comparison in pixels. -/
def ctxHov : MainCtx where
  toP2 := fun p => if p = ⟨3, 4, 0⟩ then some ⟨3, 4⟩ else some ⟨50, 50⟩
  len := fun v => v.x * v.x + v.y * v.y
  scale := fun q => q * q

/-- A strip whose first control point projects at distance exactly 5 from
the origin, the other points far away. -/
def stripHov : StripH := ⟨⟨3, 4, 0⟩, ⟨50, 0, 0⟩, ⟨60, 0, 0⟩, ⟨70, 0, 0⟩⟩

/-- Refutation of C7 as stated: with a selection radius scaling to 25 and
a control point whose projection lies at (squared) distance exactly 25
from the pointer, the distance equals the threshold — strictly-less fails
— and the point IS added to `hovering_handles`. -/
theorem hovering_exact_threshold_cex :
    ctxHov.toP2 ⟨3, 4, 0⟩ = some ⟨3, 4⟩ ∧
      ctxHov.len (v2sub ⟨0, 0⟩ ⟨3, 4⟩) = ctxHov.scale 5 ∧
      ¬ ctxHov.len (v2sub ⟨0, 0⟩ ⟨3, 4⟩) < ctxHov.scale 5 ∧
      (⟨3, 4, 0⟩ : V3) ∈ (computeHover ctxHov ⟨0, 0⟩ 5 [stripHov]).1 := by
  decide

/-- C7 (amended): in the `main` hover computation, a control point is
added to `hovering_handles` exactly when its projection exists and its
pixel distance to the pointer is less than OR EQUAL to the scaled
selection radius; the skip comparison is strict greater-than, so a point
at exactly the threshold is hovered. -/
theorem hovering_handles_within (ctx : MainCtx) (mouse : V2) (d : Int)
    (strips : List StripH) (p : V3) (h : p ∈ (computeHover ctx mouse d strips).1) :
    ∃ v, ctx.toP2 p = some v ∧ ctx.len (v2sub mouse v) ≤ ctx.scale d := by
  have hp := computeHover_handles_hover ctx mouse d strips p h
  rw [hoverPoint] at hp
  cases hv : ctx.toP2 p with
  | none => rw [hv] at hp; simp at hp
  | some v =>
    rw [hv] at hp
    refine ⟨v, rfl, ?_⟩
    simp only [Bool.not_eq_true', decide_eq_false_iff_not] at hp
    exact le_of_not_lt hp

theorem hovering_handles_within_witness :
    ctxHov.len (v2sub ⟨0, 0⟩ ⟨3, 4⟩) ≤ ctxHov.scale 5 := by
  rcases hovering_handles_within ctxHov ⟨0, 0⟩ 5 [stripHov] ⟨3, 4, 0⟩ (by decide) with
    ⟨v, hv, hle⟩
  have h' : (some v : Option V2) = some ⟨3, 4⟩ := by
    rw [← hv]; decide
  rw [Option.some.inj h'] at hle
  exact hle

/-! ## C6: which strips receive `update(...)` during the modal step -/

/-- Every strip with a hovered outer control point is in
`hovering_strips` (the `main` loop adds the strip together with the
point). -/
theorem computeHover_outer_mc (ctx : MainCtx) (mouse : V2) (d : Int) (strips : List StripH) :
    ∀ S ∈ strips,
      (S.p0 ∈ (computeHover ctx mouse d strips).1 → S ∈ (computeHover ctx mouse d strips).2) ∧
      (S.p3 ∈ (computeHover ctx mouse d strips).1 → S ∈ (computeHover ctx mouse d strips).2) := by
  intro S hS
  constructor
  · intro h
    exact hoverStrips_adds _ strips ([], []) S S.p0 hS
      (computeHover_handles_hover ctx mouse d strips _ h) (by simp [StripH.points])
  · intro h
    exact hoverStrips_adds _ strips ([], []) S S.p3 hS
      (computeHover_handles_hover ctx mouse d strips _ h) (by simp [StripH.points])

/-- Appending a pulled-in inner point and its strip preserves the
edit-set invariants, provided outer points never coincide in value with
inner points. -/
theorem pull_preserves (hh : List V3) (hs strips : List StripH)
    (hno : ∀ T ∈ strips, ∀ S ∈ strips,
        T.p0 ≠ S.p1 ∧ T.p0 ≠ S.p2 ∧ T.p3 ≠ S.p1 ∧ T.p3 ≠ S.p2)
    (hmc : ∀ S ∈ strips, (S.p0 ∈ hh → S ∈ hs) ∧ (S.p3 ∈ hh → S ∈ hs))
    (T : StripH) (hT : T ∈ strips) (a b : V3)
    (ha : a = T.p0 ∨ a = T.p3) (hb : b = T.p1 ∨ b = T.p2)
    (cbpts : List V3) (mods : List StripH)
    (hcb : ∀ p ∈ cbpts, p ∈ hh ∨ ∃ S ∈ strips, p = S.p1 ∨ p = S.p2)
    (hmods : ∀ S ∈ mods, S ∈ hs) (hain : a ∈ cbpts) :
    (∀ p ∈ cbpts ++ [b], p ∈ hh ∨ ∃ S ∈ strips, p = S.p1 ∨ p = S.p2) ∧
      (∀ S ∈ mods ++ [T], S ∈ hs) := by
  constructor
  · intro p hp
    rcases List.mem_append.mp hp with h | h
    · exact hcb p h
    · right
      exact ⟨T, hT, by rw [List.mem_singleton.mp h]; exact hb⟩
  · intro S hS
    rcases List.mem_append.mp hS with h | h
    · exact hmods S h
    · rw [List.mem_singleton.mp h]
      rcases hcb a hain with hha | ⟨S', hS', hcoin⟩
      · rcases ha with h' | h'
        · exact (hmc T hT).1 (h' ▸ hha)
        · exact (hmc T hT).2 (h' ▸ hha)
      · exfalso
        have hn := hno T hT S' hS'
        rcases ha with h' | h' <;> rcases hcoin with hc | hc
        · exact hn.1 (h'.symm.trans hc)
        · exact hn.2.1 (h'.symm.trans hc)
        · exact hn.2.2.1 (h'.symm.trans hc)
        · exact hn.2.2.2 (h'.symm.trans hc)

theorem enterStep_inv (hh : List V3) (hs strips : List StripH)
    (hno : ∀ T ∈ strips, ∀ S ∈ strips,
        T.p0 ≠ S.p1 ∧ T.p0 ≠ S.p2 ∧ T.p3 ≠ S.p1 ∧ T.p3 ≠ S.p2)
    (hmc : ∀ S ∈ strips, (S.p0 ∈ hh → S ∈ hs) ∧ (S.p3 ∈ hh → S ∈ hs))
    (T : StripH) (hT : T ∈ strips) (cbpts : List V3) (mods : List StripH)
    (hcb : ∀ p ∈ cbpts, p ∈ hh ∨ ∃ S ∈ strips, p = S.p1 ∨ p = S.p2)
    (hmods : ∀ S ∈ mods, S ∈ hs) :
    (∀ p ∈ (enterStep cbpts mods T).1, p ∈ hh ∨ ∃ S ∈ strips, p = S.p1 ∨ p = S.p2) ∧
      (∀ S ∈ (enterStep cbpts mods T).2, S ∈ hs) := by
  rw [enterStep]
  by_cases h0 : T.p0 ∈ cbpts ∧ T.p1 ∉ cbpts
  · rw [if_pos h0]
    have inv1 := pull_preserves hh hs strips hno hmc T hT T.p0 T.p1 (Or.inl rfl) (Or.inl rfl)
      cbpts mods hcb hmods h0.1
    dsimp only
    by_cases h3 : T.p3 ∈ cbpts ++ [T.p1] ∧ T.p2 ∉ cbpts ++ [T.p1]
    · rw [if_pos h3]
      exact pull_preserves hh hs strips hno hmc T hT T.p3 T.p2 (Or.inr rfl) (Or.inr rfl)
        _ _ inv1.1 inv1.2 h3.1
    · rw [if_neg h3]
      exact inv1
  · rw [if_neg h0]
    dsimp only
    by_cases h3 : T.p3 ∈ cbpts ∧ T.p2 ∉ cbpts
    · rw [if_pos h3]
      exact pull_preserves hh hs strips hno hmc T hT T.p3 T.p2 (Or.inr rfl) (Or.inr rfl)
        cbpts mods hcb hmods h3.1
    · rw [if_neg h3]
      exact ⟨hcb, hmods⟩

theorem enterLoop_inv (hh : List V3) (hs strips : List StripH)
    (hno : ∀ T ∈ strips, ∀ S ∈ strips,
        T.p0 ≠ S.p1 ∧ T.p0 ≠ S.p2 ∧ T.p3 ≠ S.p1 ∧ T.p3 ≠ S.p2)
    (hmc : ∀ S ∈ strips, (S.p0 ∈ hh → S ∈ hs) ∧ (S.p3 ∈ hh → S ∈ hs)) :
    ∀ (ss : List StripH), (∀ T ∈ ss, T ∈ strips) →
      ∀ (cbpts : List V3) (mods : List StripH),
        (∀ p ∈ cbpts, p ∈ hh ∨ ∃ S ∈ strips, p = S.p1 ∨ p = S.p2) →
        (∀ S ∈ mods, S ∈ hs) →
        ∀ S ∈ (enterLoop ss cbpts mods).2, S ∈ hs := by
  intro ss
  induction ss with
  | nil =>
    intro _ cbpts mods _ hmods S hS
    exact hmods S hS
  | cons T ss ih =>
    intro hsub cbpts mods hcb hmods
    rw [enterLoop]
    have h := enterStep_inv hh hs strips hno hmc T (hsub T (List.mem_cons_self T ss))
      cbpts mods hcb hmods
    exact ih (fun T' hT' => hsub T' (List.mem_cons_of_mem _ hT')) _ _ h.1 h.2

/-- The strip of the C6 counterexamples whose first handle is hovered. -/
def SC6 : StripH := ⟨⟨0, 0, 0⟩, ⟨1, 0, 0⟩, ⟨2, 0, 0⟩, ⟨3, 0, 0⟩⟩

/-- A second strip, not hovered, whose outer point p0 has the same value
as SC6's inner point p1. -/
def TC6 : StripH := ⟨⟨1, 0, 0⟩, ⟨4, 0, 0⟩, ⟨5, 0, 0⟩, ⟨6, 0, 0⟩⟩

/-- Screen services under which only the point (0,0,0) is hovered. -/
def ctxPull : MainCtx where
  toP2 := fun p => if p = ⟨0, 0, 0⟩ then some ⟨0, 0⟩ else some ⟨50, 50⟩
  len := fun v => v.x * v.x + v.y * v.y
  scale := fun q => q

/-- Refutation of C6 as stated: dragging SC6's hovered junction handle
pulls SC6's inner point into the edit set, whose value coincides with
TC6's outer point, so TC6 joins `mod_strips` (the edit set built on
entry) — yet the modal step's update loop iterates `hovering_strips`,
which does not contain TC6, so `update` is never called on TC6. -/
theorem modal_update_missing_cex :
    TC6 ∈ (enterLoop [SC6, TC6] (computeHover ctxPull ⟨0, 0⟩ 1 [SC6, TC6]).1
        (computeHover ctxPull ⟨0, 0⟩ 1 [SC6, TC6]).2).2 ∧
      Ev.update TC6 ∉ modalTail (computeHover ctxPull ⟨0, 0⟩ 1 [SC6, TC6]).2 := by
  decide

/-- C6 (amended): provided no strip's outer control point coincides in
value with any strip's inner control point, every strip in the edit set
built by `movehandle_enter` — hovering strips plus strips pulled in via
their outer points — receives an `update(...)` call in the modal step
strictly before the curve sample points are recomputed. -/
theorem modal_updates_cover_edit_set (ctx : MainCtx) (mouse : V2) (d : Int)
    (strips : List StripH)
    (hno : ∀ T ∈ strips, ∀ S ∈ strips,
        T.p0 ≠ S.p1 ∧ T.p0 ≠ S.p2 ∧ T.p3 ≠ S.p1 ∧ T.p3 ≠ S.p2)
    (S : StripH)
    (hS : S ∈ (enterLoop strips (computeHover ctx mouse d strips).1
        (computeHover ctx mouse d strips).2).2) :
    Ev.update S ∈ (modalTail (computeHover ctx mouse d strips).2).dropLast ∧
      (modalTail (computeHover ctx mouse d strips).2).getLast? = some Ev.viz := by
  have hmem : S ∈ (computeHover ctx mouse d strips).2 :=
    enterLoop_inv (computeHover ctx mouse d strips).1 (computeHover ctx mouse d strips).2
      strips hno (computeHover_outer_mc ctx mouse d strips) strips (fun T h => h) _ _
      (fun p hp => Or.inl hp) (fun S' h => h) S hS
  constructor
  · rw [modalTail, List.dropLast_concat]
    exact List.mem_map_of_mem Ev.update hmem
  · rw [modalTail]
    exact List.getLast?_concat _

theorem modal_updates_cover_edit_set_witness :
    Ev.update SC6 ∈ (modalTail (computeHover ctxPull ⟨0, 0⟩ 1 [SC6]).2).dropLast ∧
      (modalTail (computeHover ctxPull ⟨0, 0⟩ 1 [SC6]).2).getLast? = some Ev.viz :=
  modal_updates_cover_edit_set ctxPull ⟨0, 0⟩ 1 [SC6] (by decide) SC6 (by decide)

end PolyStrips

